import Mathlib

/-!
Verification development for the truck-loading KPI engine
(`data/processor.py`, `data/metrics.py`, `components/daily_performance.py`,
`components/loading_durations_status.py`).

Shallow embedding conventions:
* A dataframe is a `List` of typed row records; a column that is always
  present after renaming (`Truck_Plate_Number`, `Product_Group`, `Status`,
  `Timestamp`, `Coming_to_Load_or_Unload`) becomes a field of the record.
  Nullable fields (`pd.NaT` / `NaN`) become `Option`s; rows whose plate is
  null are outside the model (every relevant pandas operation drops them).
* Timestamps are natural numbers counting minutes; the local calendar date
  of a timestamp is obtained by integer division by 1440 (minutes per day),
  mirroring `.dt.date` extraction after timezone normalisation.
* `groupby(...).agg(...)` maps become per-key lookup functions: the grouped
  frames in the source have unique keys, so the left merges that consume
  them are one-to-one lookups.  `sorted(...)` of a Python set of products /
  plates is modelled by `List.dedup` (set semantics); the ordering of rows
  is a display concern (the source re-sorts the final frame for display,
  which is likewise omitted).
* Weights and rates are rationals; durations in minutes are naturals
  (timestamps have minute granularity in the model).
-/

/-- Local calendar date of a minute-valued timestamp (`.dt.date`). -/
def dateOf (t : Nat) : Nat := t / 1440

/-- Row of the `status` sheet after renaming: `Truck_Plate_Number`,
`Product_Group` (nullable), `Status`, `Timestamp` (nullable after
`pd.to_datetime(..., errors="coerce")`). -/
structure StatusRow where
  plate : String
  product : Option String
  status : String
  ts : Option Nat
deriving DecidableEq, Repr

/-- Row of the `security` sheet: `Truck_Plate_Number`, `Timestamp`,
`Coming_to_Load_or_Unload` (nullable). -/
structure SecurityRow where
  plate : String
  ts : Option Nat
  direction : Option String
deriving DecidableEq, Repr

/-- Row of the `logistic` sheet: `Truck_Plate_Number`, `Product_Group`,
`Timestamp`, `Total_Weight_MT`. -/
structure LogisticRow where
  plate : String
  product : Option String
  ts : Option Nat
  weight : Option ℚ
deriving DecidableEq, Repr

/-- Row of the `driver` sheet: `Truck_Plate_Number`, `Timestamp`. -/
structure DriverRow where
  plate : String
  ts : Option Nat
deriving DecidableEq, Repr

/-! ## `data/metrics.py` — `_filter_by_date` (lines 46-71) -/

/-- The date predicate of `_filter_by_date`: single date beats range;
with only `start` (resp. `end`) the comparison is one-sided.  A row whose
timestamp failed to parse has no date and never matches (pandas `NaT`
comparisons are false). -/
def matchDate (single? startD? endD? : Option Nat) (t : Nat) : Bool :=
  match single? with
  | some d => dateOf t == d
  | none =>
    match startD?, endD? with
    | some s, some e => decide (s ≤ dateOf t) && decide (dateOf t ≤ e)
    | some s, none => decide (s ≤ dateOf t)
    | none, some e => decide (dateOf t ≤ e)
    | none, none => true

/-- The `_filter_by_date(df, single_date, start, end)`: with no date arguments
the frame is returned unmodified; if the frame has no `Timestamp` column
(`hasTs = false`) the result is empty; otherwise rows are kept when their
local date matches.  `ts` extracts the row's parsed timestamp. -/
def filterByDate (hasTs : Bool) (ts : α → Option Nat)
    (single? startD? endD? : Option Nat) (rows : List α) : List α :=
  if single?.isNone && startD?.isNone && endD?.isNone then rows
  else if hasTs then
    rows.filter fun r =>
      match ts r with
      | some t => matchDate single? startD? endD? t
      | none => false
  else []

/-! ## `data/metrics.py` — per-(truck, product) event extraction -/

/-- The `_safe_min` over the timestamps of a group (lines 6-8): `none` on an
empty group. -/
def safeMin : List Nat → Option Nat
  | [] => none
  | t :: rest =>
    match safeMin rest with
    | none => some t
    | some m => some (min t m)

/-- The `_safe_max` (lines 10-12). -/
def safeMax : List Nat → Option Nat
  | [] => none
  | t :: rest =>
    match safeMax rest with
    | none => some t
    | some m => some (max t m)

/-- Parsed timestamps of the status rows with the given `Status`, plate and
(non-null) product — one group of the
`groupby(["Truck_Plate_Number", "Product_Group"])["Timestamp"]` frames
(pandas drops null-product rows from the grouping). -/
def statusTimes (rows : List StatusRow) (st p g : String) : List Nat :=
  (rows.filter fun r => r.status == st && r.plate == p && r.product == some g).filterMap (·.ts)

/-- The `Arrival_Time` joined onto a `(truck, product)` row (lines 81-100 and
merge at 164-168): earliest date-window `Arrival` for the pair; a
null-product row finds no match in the grouped frame. -/
def arrivalTime (stW : List StatusRow) (p : String) (g : Option String) : Option Nat :=
  match g with
  | some g => safeMin (statusTimes stW "Arrival" p g)
  | none => none

/-- The `Start_Loading_Time` for the pair (lines 102-112 and merge at 170-174). -/
def startLoadingTime (stW : List StatusRow) (p : String) (g : Option String) : Option Nat :=
  match g with
  | some g => safeMin (statusTimes stW "Start_Loading" p g)
  | none => none

/-- The `completed_grouped[(truck, prod)]` (lines 114-124): the ascending-sorted
list of `Completed` timestamps of the pair in the window. -/
def completedList (stW : List StatusRow) (p : String) (g : Option String) : List Nat :=
  match g with
  | some g => List.insertionSort (· ≤ ·) (statusTimes stW "Completed" p g)
  | none => []

/-- Completion-event selection (lines 208-216): with a start time, the
first element of the sorted list that is `≥` start, else the last element;
with no start time, the first element; `none` when the list is empty. -/
def chooseCompleted (compList : List Nat) (startTs : Option Nat) : Option Nat :=
  if compList.isEmpty then none
  else
    match startTs with
    | some s =>
      match compList.filter (fun t => decide (s ≤ t)) with
      | g :: _ => some g
      | [] => compList.getLast?
    | none => compList.head?

/-- The `Logistic_Last_Timestamp` for a truck (lines 186-190): latest logistic
timestamp of the plate, taken from the date window unless the whole
windowed logistic frame is empty, in which case the full history is used. -/
def logisticLastTs (lgW lgAll : List LogisticRow) (p : String) : Option Nat :=
  if lgW.isEmpty then safeMax ((lgAll.filter (·.plate == p)).filterMap (·.ts))
  else safeMax ((lgW.filter (·.plate == p)).filterMap (·.ts))

/-- The `Completed_Time` of a `(truck, product)` row (lines 199-224): the chosen
completion event, falling back to the truck's last logistic timestamp when
`use_fallbacks` is enabled and no completion was chosen. -/
def completedTime (stW : List StatusRow) (lgW lgAll : List LogisticRow)
    (useFallbacks : Bool) (p : String) (g : Option String) : Option Nat :=
  match chooseCompleted (completedList stW p g) (startLoadingTime stW p g) with
  | some t => some t
  | none => if useFallbacks then logisticLastTs lgW lgAll p else none

/-! ## `data/metrics.py` — durations, validation, quality (lines 232-343) -/

/-- The `abs(td_min(a, b))` (lines 234-237 with the `abs` at 276-289): absolute
minute difference, `none` when either endpoint is missing. -/
def absMin (a b : Option Nat) : Option Nat :=
  match a, b with
  | some x, some y => some (((y : Int) - (x : Int)).natAbs)
  | _, _ => none

/-- The `compute_total` (lines 296-306): both defined → sum; only loading →
loading; only waiting or neither → undefined. -/
def compute_total [Add α] (w l : Option α) : Option α :=
  match w, l with
  | some w, some l => some (w + l)
  | none, some l => some l
  | some _, none => none
  | none, none => none

/-- The `pd.notna(x) and pd.notna(y) and x < y` — the guarded comparisons of
`validate_order`. -/
def optLt (x y : Option Nat) : Bool :=
  match x, y with
  | some a, some b => decide (a < b)
  | _, _ => false

/-- The `validate_order` (lines 241-268): all timestamps missing is valid; else
the first violated ordering in priority Completed-before-Start,
Completed-before-Arrival, Start-before-Arrival yields the error. -/
def validate_order (arrival startL completed : Option Nat) : Bool × Option String :=
  if arrival.isNone && startL.isNone && completed.isNone then (true, none)
  else if optLt completed startL then (false, some "Completed before Start Loading")
  else if optLt completed arrival then (false, some "Completed before Arrival")
  else if optLt startL arrival then (false, some "Start Loading before Arrival")
  else (true, none)

/-- The `derive_date` (lines 313-328): date of the first present timestamp among
Arrival, Start_Loading, Completed. -/
def deriveDate (a s c : Option Nat) : Option Nat :=
  match a with
  | some t => some (dateOf t)
  | none =>
    match s with
    | some t => some (dateOf t)
    | none => c.map dateOf

/-- The `quality_flag` (lines 333-341): semicolon-joined missing markers, or
`"OK"`. -/
def quality_flag (a s c : Option Nat) : String :=
  let missing :=
    (if a.isNone then ["Missing_Arrival"] else []) ++
    (if s.isNone then ["Missing_Start"] else []) ++
    (if c.isNone then ["Missing_Completed"] else [])
  if missing.isEmpty then "OK" else String.intercalate ";" missing

/-! ## `data/metrics.py` — visit-row assembly (lines 126-434) -/

/-- One output row of `compute_per_truck_metrics` (the `display_cols`
selection at lines 427-432). -/
structure VisitRow where
  Truck_Plate_Number : String
  Product_Group : Option String
  Arrival_Time : Option Nat
  Start_Loading_Time : Option Nat
  Completed_Time : Option Nat
  Waiting_min : Option Nat
  Loading_min : Option Nat
  Total_min : Option Nat
  Date : Option Nat
  Data_Quality_Flag : String
  Is_Valid_Order : Bool
  Order_Error : Option String
deriving DecidableEq, Repr

/-- All derived columns of one `(truck, product)` row of the `kpi` frame. -/
def mkVisitRow (stW : List StatusRow) (lgW lgAll : List LogisticRow)
    (useFallbacks : Bool) (p : String) (g : Option String) : VisitRow :=
  let a := arrivalTime stW p g
  let s := startLoadingTime stW p g
  let c := completedTime stW lgW lgAll useFallbacks p g
  let w := absMin a s
  let ld := absMin s c
  let v := validate_order a s c
  { Truck_Plate_Number := p
    Product_Group := g
    Arrival_Time := a
    Start_Loading_Time := s
    Completed_Time := c
    Waiting_min := w
    Loading_min := ld
    Total_min := compute_total w ld
    Date := deriveDate a s c
    Data_Quality_Flag := quality_flag a s c
    Is_Valid_Order := v.1
    Order_Error := v.2 }

/-- The plates of the four sheets in the union order of lines 144-149
(status, logistic, security, driver). -/
def platesOfAll (sec : List SecurityRow) (st : List StatusRow)
    (lg : List LogisticRow) (dr : List DriverRow) : List String :=
  st.map (·.plate) ++ lg.map (·.plate) ++ sec.map (·.plate) ++ dr.map (·.plate)

/-- The `trucks` (lines 144-149): the set of distinct plates across all four
sheets (`dedup` models the Python set; ordering is display-only). -/
def trucksUnion (sec : List SecurityRow) (st : List StatusRow)
    (lg : List LogisticRow) (dr : List DriverRow) : List String :=
  (platesOfAll sec st lg dr).dedup

/-- Non-null products of the plate's status rows, in row order. -/
def statusProducts (rows : List StatusRow) (p : String) : List String :=
  (rows.filter (·.plate == p)).filterMap (·.product)

/-- Non-null products of the plate's logistic rows, in row order. -/
def logisticProducts (rows : List LogisticRow) (p : String) : List String :=
  (rows.filter (·.plate == p)).filterMap (·.product)

/-- The `prod_sets[truck]` (lines 130-141): products observed for the plate in
the windowed status frame, the windowed logistic frame, and the full status
history (`dedup` models the Python set). -/
def productsOf (stW : List StatusRow) (lgW : List LogisticRow)
    (stAll : List StatusRow) (p : String) : List String :=
  (statusProducts stW p ++ logisticProducts lgW p ++ statusProducts stAll p).dedup

/-- The base `(Truck_Plate_Number, Product_Group)` rows of one plate
(lines 153-160): one row per observed product, or a single null-product
row. -/
def truckRows (stW : List StatusRow) (lgW : List LogisticRow)
    (stAll : List StatusRow) (p : String) : List (String × Option String) :=
  match productsOf stW lgW stAll p with
  | [] => [(p, none)]
  | ps => ps.map fun g => (p, some g)

/-- The base `kpi` frame (lines 144-162): one `(plate, product)` row per
truck of the union and observed product. -/
def baseRows (sec : List SecurityRow) (st : List StatusRow) (lg : List LogisticRow)
    (dr : List DriverRow) (stW : List StatusRow) (lgW : List LogisticRow) :
    List (String × Option String) :=
  (trucksUnion sec st lg dr).flatMap (truckRows stW lgW st)

/-- Date attribution filter on the derived `Date` column (lines 382-399):
rows with no derivable date never match a requested date or range. -/
def dateAttrFilter (single? startD? endD? : Option Nat) (rows : List VisitRow) :
    List VisitRow :=
  match single? with
  | some d => rows.filter fun r => r.Date == some d
  | none =>
    match startD?, endD? with
    | some s, some e =>
      rows.filter fun r =>
        match r.Date with
        | some dd => decide (s ≤ dd) && decide (dd ≤ e)
        | none => false
    | some s, none =>
      rows.filter fun r =>
        match r.Date with
        | some dd => decide (s ≤ dd)
        | none => false
    | none, some e =>
      rows.filter fun r =>
        match r.Date with
        | some dd => decide (dd ≤ e)
        | none => false
    | none, none => rows

/-- Product filter (lines 402-403): `product_filter` is falsy when empty;
null products are never in the filter list (`isin` semantics). -/
def productFilterApply (pf : List String) (rows : List VisitRow) : List VisitRow :=
  if pf.isEmpty then rows
  else
    rows.filter fun r =>
      match r.Product_Group with
      | some g => pf.contains g
      | none => false

/-- First non-null value of a column in group order — pandas
`groupby(...).agg("first")`. -/
def firstSome : List (Option α) → Option α
  | [] => none
  | some a :: _ => some a
  | none :: rest => firstSome rest

/-- The `sec_map` lookup (lines 411-418): first non-null direction among the
windowed security rows of the plate whose scan date equals `d` (rows with
unparsed timestamps have no date group). -/
def secDirOnDate (secW : List SecurityRow) (p : String) (d : Nat) : Option String :=
  firstSome ((secW.filter fun r => r.plate == p && r.ts.map dateOf == some d).map (·.direction))

/-- Historic fallback `sec_map` (lines 420-422): first non-null direction of
the plate across the whole security history. -/
def secDirFirstEver (secAll : List SecurityRow) (p : String) : Option String :=
  firstSome ((secAll.filter fun r => r.plate == p).map (·.direction))

/-- The `upload_type` filter (lines 406-424): date-scoped direction when a date
argument was given and the windowed security frame is nonempty, else the
first-ever direction; rows whose joined direction misses or differs are
dropped. -/
def uploadTypeFilter (secAll secW : List SecurityRow) (dateArgs : Bool)
    (ut : Option String) (rows : List VisitRow) : List VisitRow :=
  match ut with
  | none => rows
  | some u =>
    if dateArgs && !secW.isEmpty then
      rows.filter fun r =>
        match r.Date with
        | some d => secDirOnDate secW r.Truck_Plate_Number d == some u
        | none => false
    else
      rows.filter fun r => secDirFirstEver secAll r.Truck_Plate_Number == some u

/-- The `compute_per_truck_metrics` (lines 14-434).  The `driver` frame is
filtered like the others but feeds nothing downstream except the plate
union; the display-only final sort is omitted. -/
def computeVisits (sec : List SecurityRow) (st : List StatusRow)
    (lg : List LogisticRow) (dr : List DriverRow)
    (selected? startD? endD? : Option Nat) (pf : List String)
    (ut : Option String) (useFallbacks : Bool) : List VisitRow :=
  let stW := filterByDate true StatusRow.ts selected? startD? endD? st
  let lgW := filterByDate true LogisticRow.ts selected? startD? endD? lg
  let secW := filterByDate true SecurityRow.ts selected? startD? endD? sec
  let base := baseRows sec st lg dr stW lgW
  let rows0 := base.map fun pr => mkVisitRow stW lgW lg useFallbacks pr.1 pr.2
  let rows1 := dateAttrFilter selected? startD? endD? rows0
  let rows2 := productFilterApply pf rows1
  let dateArgs := selected?.isSome || startD?.isSome || endD?.isSome
  uploadTypeFilter sec secW dateArgs ut rows2

/-! ## `components/daily_performance.py` — aggregate rates (lines 144-187) -/

/-- The `compute_rate` (per-row, lines 144-151): `Total_min / Total_Weight_MT`,
guarded against missing or zero weight and missing minutes. -/
def compute_rate_row_daily (wt tm : Option ℚ) : Option ℚ :=
  match wt with
  | none => none
  | some w => if w = 0 then none else
    match tm with
    | none => none
    | some t => some (t / w)

/-- The `compute_rate_daily` (lines 168-175): aggregated
`Total_Loading_min / Total_weight_MT`, guarded against missing or zero
weight and missing minutes. -/
def compute_rate_daily (wt lm : Option ℚ) : Option ℚ :=
  match wt with
  | none => none
  | some w => if w = 0 then none else
    match lm with
    | none => none
    | some l => some (l / w)

/-- The `compute_mt_per_hour_daily` (lines 180-185): aggregated
`Total_weight_MT * 60 / Total_Loading_min`, guarded against missing
operands and zero minutes. -/
def compute_mt_per_hour_daily (wt lm : Option ℚ) : Option ℚ :=
  match wt, lm with
  | some w, some l => if l = 0 then none else some (w * 60 / l)
  | _, _ => none

/-! ## `components/loading_durations_status.py` — rates and direction join -/

/-- The `compute_rate` (lines 197-205): `Loading_min / Total_Weight_MT`, guarded
against missing operands and zero weight. -/
def compute_rate_row (lm wt : Option ℚ) : Option ℚ :=
  match lm, wt with
  | some l, some w => if w = 0 then none else some (l / w)
  | _, _ => none

/-- The `compute_mt_per_hour` (lines 213-221): `Total_Weight_MT * 60 /
Loading_min`, guarded against missing operands and zero minutes. -/
def compute_mt_per_hour_row (wt lm : Option ℚ) : Option ℚ :=
  match wt, lm with
  | some w, some l => if l = 0 then none else some (w * 60 / l)
  | _, _ => none

/-- Ordering of security rows by timestamp used by
`sort_values("Timestamp")`: unparsed timestamps sort last (pandas puts
`NaT` at the end). -/
def tsLe (a b : Option Nat) : Bool :=
  match a, b with
  | some x, some y => decide (x ≤ y)
  | some _, none => true
  | none, none => true
  | none, some _ => false

/-- The sort relation on security rows. -/
def secRel (a b : SecurityRow) : Prop := tsLe a.ts b.ts = true

instance : DecidableRel secRel := fun a b => instDecidableEqBool (tsLe a.ts b.ts) true

instance : IsTotal SecurityRow secRel :=
  ⟨fun a b => by
    unfold secRel tsLe
    match a.ts, b.ts with
    | some x, some y =>
      rcases Nat.le_total x y with h | h
      · exact Or.inl (by simpa using h)
      · exact Or.inr (by simpa using h)
    | some _, none => exact Or.inl rfl
    | none, none => exact Or.inl rfl
    | none, some _ => exact Or.inr rfl⟩

instance : IsTrans SecurityRow secRel :=
  ⟨fun a b c hab hbc => by
    unfold secRel at *
    revert hab hbc
    cases a.ts <;> cases b.ts <;> cases c.ts <;>
      (intro hab hbc
       first
        | rfl
        | (exfalso; simp [tsLe] at hab hbc; done)
        | (simp only [tsLe, decide_eq_true_eq] at hab hbc ⊢; omega))⟩

/-- Last non-null value of a column — pandas `groupby(...).last()`. -/
def lastSome (l : List (Option α)) : Option α := firstSome l.reverse

/-- The `coming_map` (lines 185-191): sort the whole security history by
timestamp, group by plate, take the last non-null direction. -/
def comingMap (sec : List SecurityRow) (p : String) : Option String :=
  lastSome (((List.insertionSort secRel sec).filter (·.plate == p)).map (·.direction))

/-- Modelled from the spec: the two-tier direction lookup that §4.5 of the
spec describes for `Coming_to_Load_or_Unload` — prefer a security scan
whose date matches the visit's date, else fall back to the truck's
first-ever known direction.  Stated only for comparison with the code's
`comingMap`; the code of `show_loading_durations_status` does not implement
it. -/
def directionSpecTwoTier (sec : List SecurityRow) (p : String) (visitDate : Nat) :
    Option String :=
  match firstSome ((sec.filter fun r => r.plate == p && r.ts.map dateOf == some visitDate).map (·.direction)) with
  | some d => some d
  | none => firstSome ((sec.filter (·.plate == p)).map (·.direction))

/-! ## `data/processor.py` — `normalize_plate` (lines 7-21) -/

/-- The separator class of `re.sub(r"[ ._:;/\\]+", "-", x)`. -/
def isSepChar (c : Char) : Bool :=
  c == ' ' || c == '.' || c == '_' || c == ':' || c == ';' || c == '/' || c == '\\'

/-- Character-wise separator replacement; combined with `collapseHyphens`
this equals the two `re.sub` passes, since the second pass collapses every
hyphen run regardless of origin. -/
def sepToHyphen (c : Char) : Char := if isSepChar c then '-' else c

/-- The `re.sub(r"-+", "-", x)`: collapse hyphen runs. -/
def collapseHyphens : List Char → List Char
  | [] => []
  | [c] => [c]
  | a :: b :: rest =>
    if a == '-' && b == '-' then collapseHyphens (b :: rest)
    else a :: collapseHyphens (b :: rest)

/-- Remove matching characters from the end (`.strip` tail side). -/
def dropTrail (p : Char → Bool) (l : List Char) : List Char :=
  (l.reverse.dropWhile p).reverse

/-- Python `str.strip` with an arbitrary character class. -/
def stripChars (p : Char → Bool) (l : List Char) : List Char :=
  dropTrail p (l.dropWhile p)

/-- The `normalize_plate` on a nullable string modelled as a character list:
uppercase, trim whitespace, replace separator runs by a hyphen, collapse
hyphen runs, strip leading/trailing hyphens; null passes through. -/
def normalize_plate (x : Option (List Char)) : Option (List Char) :=
  match x with
  | none => none
  | some s =>
    some (stripChars (· == '-')
      (collapseHyphens ((stripChars Char.isWhitespace (s.map Char.toUpper)).map sepToHyphen)))

/-! ## Theorems -/

/-- C4: `Total_min` composition — both defined gives the sum, only
`Loading_min` gives `Loading_min`, only `Waiting_min` or neither gives
undefined; every visit row's `Total_min` is `compute_total` of its
`Waiting_min` and `Loading_min`; and the spec's worked examples
30/45 → 75, none/45 → 45, 30/none → none. -/
theorem c4_total_min_composition :
    (∀ w l : ℚ, compute_total (some w) (some l) = some (w + l)) ∧
    (∀ l : ℚ, compute_total none (some l) = some l) ∧
    (∀ w : ℚ, compute_total (some w) (none : Option ℚ) = none) ∧
    compute_total (none : Option ℚ) (none : Option ℚ) = none ∧
    (∀ stW lgW lgAll uf p g, (mkVisitRow stW lgW lgAll uf p g).Total_min =
      compute_total (mkVisitRow stW lgW lgAll uf p g).Waiting_min
        (mkVisitRow stW lgW lgAll uf p g).Loading_min) ∧
    compute_total (some (30 : ℚ)) (some 45) = some 75 ∧
    compute_total (none : Option ℚ) (some (45 : ℚ)) = some 45 ∧
    compute_total (some (30 : ℚ)) (none : Option ℚ) = none := by
  refine ⟨fun w l => rfl, fun l => rfl, fun w => rfl, rfl,
    fun stW lgW lgAll uf p g => rfl, ?_, rfl, rfl⟩
  norm_num [compute_total]

/-- C5: `validate_order` flags invalid exactly when one of the three
guarded comparisons holds, the error message is the first violated
condition in priority order, all-absent is valid, and the spec's example
Arrival 09:00 / Start 08:30 / Completed 10:00 yields
"Start Loading before Arrival". -/
theorem c5_validate_order :
    (∀ a s c : Option Nat,
      ((validate_order a s c).1 = false ↔
        (optLt c s = true ∨ optLt c a = true ∨ optLt s a = true)) ∧
      ((validate_order a s c).2 =
        if optLt c s then some "Completed before Start Loading"
        else if optLt c a then some "Completed before Arrival"
        else if optLt s a then some "Start Loading before Arrival"
        else none)) ∧
    validate_order none none none = (true, none) ∧
    validate_order (some 540) (some 510) (some 600) =
      (false, some "Start Loading before Arrival") := by
  refine ⟨fun a s c => ?_, rfl, by decide⟩
  by_cases h0 : (a.isNone && s.isNone && c.isNone) = true
  · simp only [Bool.and_eq_true, Option.isNone_iff_eq_none] at h0
    obtain ⟨⟨ha, hs⟩, hc⟩ := h0
    subst ha; subst hs; subst hc
    simp [validate_order, optLt]
  · unfold validate_order
    rw [if_neg h0]
    by_cases h1 : optLt c s = true
    · simp [h1]
    · by_cases h2 : optLt c a = true
      · simp [h1, h2]
      · by_cases h3 : optLt s a = true
        · simp [h1, h2, h3]
        · simp [h1, h2, h3]

/-- C10: the `Data_Quality_Flag` is `"OK"` exactly when all three
timestamps are present; otherwise it is the semicolon-joined markers in
the fixed order Missing_Arrival, Missing_Start, Missing_Completed, each
appearing exactly when the corresponding timestamp is absent. -/
theorem c10_quality_flag_shape :
    (∀ t1 t2 t3 : Nat, quality_flag (some t1) (some t2) (some t3) = "OK") ∧
    (∀ t2 t3 : Nat, quality_flag none (some t2) (some t3) = "Missing_Arrival") ∧
    (∀ t1 t3 : Nat, quality_flag (some t1) none (some t3) = "Missing_Start") ∧
    (∀ t1 t2 : Nat, quality_flag (some t1) (some t2) none = "Missing_Completed") ∧
    (∀ t3 : Nat, quality_flag none none (some t3) = "Missing_Arrival;Missing_Start") ∧
    (∀ t2 : Nat, quality_flag none (some t2) none = "Missing_Arrival;Missing_Completed") ∧
    (∀ t1 : Nat, quality_flag (some t1) none none = "Missing_Start;Missing_Completed") ∧
    quality_flag none none none = "Missing_Arrival;Missing_Start;Missing_Completed" :=
  ⟨fun _ _ _ => rfl, fun _ _ => rfl, fun _ _ => rfl, fun _ _ => rfl,
   fun _ => rfl, fun _ => rfl, fun _ => rfl, rfl⟩

/-- C9: `_filter_by_date` with no date arguments returns the frame
unmodified; with any date argument but no `Timestamp` column it returns an
empty frame instead of raising. -/
theorem c9_filter_degradation :
    (∀ (α : Type) (ts : α → Option Nat) (hasTs : Bool) (rows : List α),
      filterByDate hasTs ts none none none rows = rows) ∧
    (∀ (α : Type) (ts : α → Option Nat) (single? startD? endD? : Option Nat)
      (rows : List α),
      (single?.isSome || startD?.isSome || endD?.isSome) = true →
      filterByDate false ts single? startD? endD? rows = []) := by
  constructor
  · intro α ts hasTs rows; rfl
  · intro α ts s? a? b? rows h
    rcases s? with _ | d <;> rcases a? with _ | d1 <;> rcases b? with _ | d2 <;>
      simp_all [filterByDate]

/-- Witness for C9 at a concrete frame: a one-row status table with no
Timestamp column and a requested single date filters to empty. -/
theorem c9_filter_degradation_witness :
    filterByDate false StatusRow.ts (some 0) none none
      [{ plate := "A", product := none, status := "Arrival", ts := some 5 }] = [] :=
  c9_filter_degradation.2 StatusRow StatusRow.ts (some 0) none none _ (by decide)

/-- C3 counterexample: with `Total_weight_MT = 0` and `Total_Loading_min =
5`, `compute_mt_per_hour_daily` returns a defined value `0` (its guard
checks only the minutes), and with `Total_weight_MT = 5` and
`Total_Loading_min = 0`, `compute_rate_daily` returns a defined `0` — the
claim that both rates are undefined whenever either quantity is zero is
false. -/
theorem c3_rate_zero_guard_counterexample :
    compute_mt_per_hour_daily (some 0) (some 5) = some 0 ∧
    compute_rate_daily (some 5) (some 0) = some 0 := by
  constructor
  · show (if (5 : ℚ) = 0 then none else some ((0 : ℚ) * 60 / 5)) = some 0
    norm_num
  · show (if (5 : ℚ) = 0 then none else some ((0 : ℚ) / 5)) = some 0
    norm_num

/-- C3 amended: each rate guards its own denominator (and missing
operands): min/MT is undefined iff the weight is missing or zero or the
minutes are missing; MT/Hour is undefined iff an operand is missing or the
minutes are zero; when defined the value is the exact quotient, so no
division by zero, infinity or NaN can occur — but a defined `0` rate is
possible when the numerator is zero. -/
theorem c3_amended_rate_guards (wt lm : Option ℚ) :
    (compute_rate_daily wt lm = none ↔ wt = none ∨ wt = some 0 ∨ lm = none) ∧
    (compute_mt_per_hour_daily wt lm = none ↔ wt = none ∨ lm = none ∨ lm = some 0) ∧
    (compute_rate_row lm wt = none ↔ lm = none ∨ wt = none ∨ wt = some 0) ∧
    (compute_mt_per_hour_row wt lm = none ↔ wt = none ∨ lm = none ∨ lm = some 0) ∧
    (compute_rate_row_daily wt lm = none ↔ wt = none ∨ wt = some 0 ∨ lm = none) ∧
    (∀ w l : ℚ, w ≠ 0 → compute_rate_daily (some w) (some l) = some (l / w)) ∧
    (∀ w l : ℚ, l ≠ 0 → compute_mt_per_hour_daily (some w) (some l) = some (w * 60 / l)) := by
  refine ⟨?_, ?_, ?_, ?_, ?_, fun w l hw => by simp [compute_rate_daily, hw],
    fun w l hl => by simp [compute_mt_per_hour_daily, hl]⟩ <;>
    rcases wt with _ | w <;> rcases lm with _ | l <;>
      simp [compute_rate_daily, compute_mt_per_hour_daily,
        compute_rate_row, compute_mt_per_hour_row, compute_rate_row_daily]

/-- Witness for C3's amended statement at a concrete defined rate:
weight 2 MT and 6 loading minutes give a min/MT rate of 3. -/
theorem c3_amended_rate_guards_witness :
    compute_rate_daily (some 2) (some 6) = some 3 := by
  have h := (c3_amended_rate_guards (some 2) (some 6)).2.2.2.2.2.1 2 6 (by norm_num)
  rw [h]
  norm_num

/-- C1: on the ascending-sorted completed list of a pair, with no start
time the first element is chosen; with a start time exceeding every
element the last element is chosen; with any element `≥` start the chosen
element is the earliest such; the pipeline's completed lists are indeed
sorted; and the spec's example start `T0 = 100` with completions
`[95, 110, 120]` chooses `110`. -/
theorem c1_completion_selection (l : List Nat) (s : Nat)
    (hl : List.Sorted (· ≤ ·) l) :
    chooseCompleted l none = l.head? ∧
    ((∀ t ∈ l, t < s) → chooseCompleted l (some s) = l.getLast?) ∧
    (∀ t ∈ l, s ≤ t → ∃ u, chooseCompleted l (some s) = some u ∧
      u ∈ l ∧ s ≤ u ∧ u ≤ t) ∧
    (∀ stW p g, List.Sorted (· ≤ ·) (completedList stW p g)) ∧
    chooseCompleted [95, 110, 120] (some 100) = some 110 := by
  refine ⟨?_, ?_, ?_, ?_, by decide⟩
  · cases l <;> rfl
  · intro h
    cases l with
    | nil => rfl
    | cons a t =>
      have hf : (a :: t).filter (fun x => decide (s ≤ x)) = [] := by
        rw [List.filter_eq_nil_iff]
        intro x hx
        simp only [decide_eq_true_eq]
        exact Nat.not_le.mpr (h x hx)
      simp [chooseCompleted, hf]
  · intro t ht hst
    have hne : l.filter (fun x => decide (s ≤ x)) ≠ [] := by
      intro hnil
      have := List.filter_eq_nil_iff.mp hnil t ht
      simp [hst] at this
    cases hfe : l.filter (fun x => decide (s ≤ x)) with
    | nil => exact absurd hfe hne
    | cons u rest =>
      have hu : u ∈ l.filter (fun x => decide (s ≤ x)) := by
        rw [hfe]; exact List.mem_cons_self _ _
      obtain ⟨hul, hsu⟩ := List.mem_filter.mp hu
      have hp : List.Pairwise (· ≤ ·) (l.filter (fun x => decide (s ≤ x))) :=
        hl.filter _
      have htf : t ∈ l.filter (fun x => decide (s ≤ x)) :=
        List.mem_filter.mpr ⟨ht, by simpa using hst⟩
      rw [hfe] at hp htf
      have hut : u ≤ t := by
        rcases List.mem_cons.mp htf with h | h
        · exact h ▸ le_refl u
        · exact (List.pairwise_cons.mp hp).1 t h
      have hle : l.isEmpty = false := by
        cases l
        · cases ht
        · rfl
      refine ⟨u, ?_, hul, by simpa using hsu, hut⟩
      simp only [chooseCompleted, hle, Bool.false_eq_true, if_false, hfe]
  · intro stW p g
    cases g with
    | none => exact List.sorted_nil
    | some g => exact List.sorted_insertionSort _ _

/-- Witness for C1: the sorted list `[95, 110, 120]` with start time 100
satisfies the hypothesis, and the chosen completion is 110. -/
theorem c1_completion_selection_witness :
    List.Sorted (· ≤ ·) [95, 110, 120] ∧
    chooseCompleted [95, 110, 120] (some 100) = some 110 :=
  ⟨by decide, (c1_completion_selection [95, 110, 120] 100 (by decide)).2.2.2.2⟩

/-- C7 counterexample: `normalize_plate` is not idempotent on every string.
On `"-\t-"` the first pass strips the hyphens and exposes the tab
(`"\t"`), which the second pass's whitespace trim then removes (`""`) —
the tab is trimmed by `strip()` but is not in the separator class. -/
theorem c7_idempotent_counterexample :
    normalize_plate (normalize_plate (some ['-', '\t', '-'])) ≠
      normalize_plate (some ['-', '\t', '-']) := by decide

/-- Unfolding of `Char.toUpper`. -/
theorem toUpper_eq (c : Char) :
    Char.toUpper c =
      if c.toNat ≥ 97 ∧ c.toNat ≤ 122 then Char.ofNat (c.toNat - 32) else c := rfl

/-- Uppercasing either fixes its argument or produces an ASCII capital
letter. -/
theorem toUpper_cases (c : Char) :
    Char.toUpper c = c ∨ (65 ≤ (Char.toUpper c).toNat ∧ (Char.toUpper c).toNat ≤ 90) := by
  rw [toUpper_eq]
  by_cases h : c.toNat ≥ 97 ∧ c.toNat ≤ 122
  · right
    rw [if_pos h]
    have hv : (c.toNat - 32).isValidChar := Or.inl (by omega)
    rw [Char.ofNat, dif_pos hv]
    have he : (Char.ofNatAux (c.toNat - 32) hv).toNat = c.toNat - 32 := rfl
    omega
  · left; rw [if_neg h]

/-- Uppercasing a character twice equals uppercasing it once. -/
theorem toUpper_idem (c : Char) : Char.toUpper (Char.toUpper c) = Char.toUpper c := by
  rcases toUpper_cases c with h | h
  · rw [h]; exact h
  · rw [toUpper_eq (Char.toUpper c), if_neg (by omega)]

/-- The code points of the whitespace class. -/
theorem isWhitespace_toNat {c : Char} (h : c.isWhitespace = true) :
    c.toNat = 32 ∨ c.toNat = 9 ∨ c.toNat = 13 ∨ c.toNat = 10 := by
  simp only [Char.isWhitespace, Bool.or_eq_true, decide_eq_true_eq] at h
  rcases h with ((h | h) | h) | h <;> subst h <;> simp

/-- If uppercasing a character yields whitespace, the character was already
fixed by uppercasing (capital letters are never whitespace). -/
theorem toUpper_ws_fixed {c : Char} (h : (Char.toUpper c).isWhitespace = true) :
    Char.toUpper c = c := by
  rcases toUpper_cases c with h1 | h1
  · exact h1
  · exfalso
    rcases isWhitespace_toNat h with h2 | h2 | h2 | h2 <;> omega

/-- Collapsing hyphens only keeps characters of the input. -/
theorem mem_collapseHyphens :
    ∀ (l : List Char) (c : Char), c ∈ collapseHyphens l → c ∈ l
  | [], _, h => by simp [collapseHyphens] at h
  | [_], _, h => by simpa [collapseHyphens] using h
  | a :: b :: rest, c, h => by
    by_cases hab : (a == '-' && b == '-') = true
    · simp only [collapseHyphens, hab, if_true] at h
      exact List.mem_cons_of_mem _ (mem_collapseHyphens (b :: rest) c h)
    · simp only [collapseHyphens, hab, Bool.false_eq_true, if_false] at h
      rcases List.mem_cons.mp h with h | h
      · exact h ▸ List.mem_cons_self _ _
      · exact List.mem_cons_of_mem _ (mem_collapseHyphens (b :: rest) c h)

/-- Collapsing hyphens preserves the head. -/
theorem head?_collapseHyphens :
    ∀ (l : List Char), (collapseHyphens l).head? = l.head?
  | [] => rfl
  | [_] => rfl
  | a :: b :: rest => by
    by_cases hab : (a == '-' && b == '-') = true
    · simp only [collapseHyphens, hab, if_true]
      rw [head?_collapseHyphens (b :: rest)]
      obtain ⟨h1, h2⟩ : a = '-' ∧ b = '-' := by
        simp only [Bool.and_eq_true, beq_iff_eq] at hab
        exact hab
      simp [h1, h2]
    · simp [collapseHyphens, hab]

/-- The output of `collapseHyphens` has no adjacent hyphen pair. -/
theorem chain'_collapseHyphens :
    ∀ (l : List Char),
      List.Chain' (fun a b => ¬(a = '-' ∧ b = '-')) (collapseHyphens l)
  | [] => List.chain'_nil
  | [a] => List.chain'_singleton a
  | a :: b :: rest => by
    by_cases hab : (a == '-' && b == '-') = true
    · simp only [collapseHyphens, hab, if_true]
      exact chain'_collapseHyphens (b :: rest)
    · simp only [collapseHyphens, hab, Bool.false_eq_true, if_false]
      refine List.chain'_cons'.mpr ⟨?_, chain'_collapseHyphens (b :: rest)⟩
      intro y hy
      rw [head?_collapseHyphens (b :: rest)] at hy
      have hyb : y = b := by
        simp only [List.head?_cons, Option.mem_def, Option.some.injEq] at hy
        exact hy.symm
      subst hyb
      intro hcon
      exact hab (by simp [hcon.1, hcon.2])

/-- A list with no adjacent hyphen pair is fixed by `collapseHyphens`. -/
theorem collapseHyphens_of_chain' :
    ∀ (l : List Char),
      List.Chain' (fun a b => ¬(a = '-' ∧ b = '-')) l → collapseHyphens l = l
  | [], _ => rfl
  | [_], _ => rfl
  | a :: b :: rest, h => by
    have hab : ¬(a = '-' ∧ b = '-') := (List.chain'_cons.mp h).1
    have hb : (a == '-' && b == '-') = false := by
      by_cases h1 : a = '-'
      · by_cases h2 : b = '-'
        · exact absurd ⟨h1, h2⟩ hab
        · simp [h2]
      · simp [h1]
    simp only [collapseHyphens, hb, Bool.false_eq_true, if_false]
    rw [collapseHyphens_of_chain' (b :: rest) (List.chain'_cons.mp h).2]

/-- Dropping the head run is the identity when no element matches. -/
theorem dropWhile_eq_self_of_all {α : Type} {p : α → Bool} {l : List α}
    (h : ∀ c ∈ l, p c = false) : l.dropWhile p = l := by
  cases l with
  | nil => rfl
  | cons a t => simp [List.dropWhile_cons, h a (List.mem_cons_self a t)]

/-- Dropping a matching head run twice equals dropping it once. -/
theorem dropWhile_idem {α : Type} (p : α → Bool) :
    ∀ (l : List α), (l.dropWhile p).dropWhile p = l.dropWhile p
  | [] => rfl
  | a :: t => by
    by_cases h : p a = true
    · simp only [List.dropWhile_cons, h, if_true]
      exact dropWhile_idem p t
    · simp [List.dropWhile_cons, h]

/-- The head surviving `dropWhile` does not match the predicate. -/
theorem head?_dropWhile_false {α : Type} (p : α → Bool) :
    ∀ (l : List α) (c : α), (l.dropWhile p).head? = some c → p c = false
  | [], c, h => by cases h
  | a :: t, c, h => by
    by_cases ha : p a = true
    · simp only [List.dropWhile_cons, ha, if_true] at h
      exact head?_dropWhile_false p t c h
    · simp only [List.dropWhile_cons, ha, Bool.false_eq_true, if_false] at h
      cases h
      simpa using ha

/-- Dropping the head run is the identity when the head (if any) does not match. -/
theorem dropWhile_eq_self_of_head {α : Type} {p : α → Bool} {l : List α}
    (h : ∀ c, l.head? = some c → p c = false) : l.dropWhile p = l := by
  cases l with
  | nil => rfl
  | cons a t => simp [List.dropWhile_cons, h a rfl]

/-- Dropping a tail run yields a prefix of the input. -/
theorem dropTrail_prefixOf (p : Char → Bool) (l : List Char) : dropTrail p l <+: l := by
  have h1 : (dropTrail p l).reverse = List.dropWhile p l.reverse := by
    unfold dropTrail
    rw [List.reverse_reverse]
  exact List.reverse_suffix.mp (h1 ▸ List.dropWhile_suffix p)

/-- A nonempty prefix has the same head. -/
theorem head?_of_prefixOf {α : Type} {l₁ l₂ : List α} (h : l₁ <+: l₂) (hne : l₁ ≠ []) :
    l₁.head? = l₂.head? := by
  obtain ⟨t, rfl⟩ := h
  cases l₁ with
  | nil => exact absurd rfl hne
  | cons a t1 => rfl

/-- Stripping only keeps characters of the input. -/
theorem mem_stripChars {p : Char → Bool} {c : Char} {l : List Char}
    (h : c ∈ stripChars p l) : c ∈ l := by
  have h1 : c ∈ l.dropWhile p :=
    ((dropTrail_prefixOf p (l.dropWhile p)).sublist).mem h
  exact (List.dropWhile_sublist p).mem h1

/-- Stripping is the identity when no element matches. -/
theorem stripChars_eq_self_of_all {p : Char → Bool} {l : List Char}
    (h : ∀ c ∈ l, p c = false) : stripChars p l = l := by
  unfold stripChars dropTrail
  rw [dropWhile_eq_self_of_all h,
    dropWhile_eq_self_of_all (fun c hc => h c (List.mem_reverse.mp hc)),
    List.reverse_reverse]

/-- Dropping a matching tail run twice equals dropping it once. -/
theorem dropTrail_idem (p : Char → Bool) (l : List Char) :
    dropTrail p (dropTrail p l) = dropTrail p l := by
  unfold dropTrail
  rw [List.reverse_reverse, dropWhile_idem]

/-- Stripping both ends twice equals stripping them once. -/
theorem stripChars_idem (p : Char → Bool) (l : List Char) :
    stripChars p (stripChars p l) = stripChars p l := by
  have h1 : (stripChars p l).dropWhile p = stripChars p l := by
    apply dropWhile_eq_self_of_head
    intro c hc
    have hne : stripChars p l ≠ [] := by
      intro h0; rw [h0] at hc; cases hc
    unfold stripChars at hc
    rw [head?_of_prefixOf (dropTrail_prefixOf p (l.dropWhile p)) (by
      intro h0
      apply hne
      unfold stripChars
      exact h0)] at hc
    exact head?_dropWhile_false p l c hc
  show dropTrail p ((stripChars p l).dropWhile p) = stripChars p l
  rw [h1]
  unfold stripChars
  rw [dropTrail_idem]

/-- Stripping preserves the absence of adjacent hyphen pairs. -/
theorem chain'_stripChars {p : Char → Bool} {l : List Char}
    (h : List.Chain' (fun a b => ¬(a = '-' ∧ b = '-')) l) :
    List.Chain' (fun a b => ¬(a = '-' ∧ b = '-')) (stripChars p l) := by
  have h1 : List.Chain' (fun a b => ¬(a = '-' ∧ b = '-')) (l.dropWhile p) :=
    h.suffix (List.dropWhile_suffix p)
  exact h1.prefix (dropTrail_prefixOf p (l.dropWhile p))

/-- Every character surviving one `normalize_plate` pass on a string whose
whitespace is only spaces is upper-fixed, non-whitespace and outside the
separator class. -/
theorem normalize_core_chars {l : List Char}
    (h : ∀ c ∈ l, c.isWhitespace = true → c = ' ') :
    ∀ c ∈ stripChars (· == '-')
        (collapseHyphens
          ((stripChars Char.isWhitespace (l.map Char.toUpper)).map sepToHyphen)),
      Char.toUpper c = c ∧ c.isWhitespace = false ∧ isSepChar c = false := by
  intro c hc
  have hc3 : c ∈ collapseHyphens
      ((stripChars Char.isWhitespace (l.map Char.toUpper)).map sepToHyphen) :=
    mem_stripChars hc
  have hc2 : c ∈ (stripChars Char.isWhitespace (l.map Char.toUpper)).map sepToHyphen :=
    mem_collapseHyphens _ c hc3
  obtain ⟨c1, hc1, rfl⟩ := List.mem_map.mp hc2
  have hc1u : c1 ∈ l.map Char.toUpper := mem_stripChars hc1
  obtain ⟨c0, hc0, rfl⟩ := List.mem_map.mp hc1u
  by_cases hsep : isSepChar (Char.toUpper c0) = true
  · have heq : sepToHyphen (Char.toUpper c0) = '-' := by simp [sepToHyphen, hsep]
    rw [heq]
    exact ⟨by decide, by decide, by decide⟩
  · have heq : sepToHyphen (Char.toUpper c0) = Char.toUpper c0 := by
      simp [sepToHyphen, hsep]
    rw [heq]
    refine ⟨toUpper_idem c0, ?_, by simpa using hsep⟩
    by_contra hws
    have hws2 : (Char.toUpper c0).isWhitespace = true := by simpa using hws
    have hfix := toUpper_ws_fixed hws2
    rw [hfix] at hws2 hsep
    have hsp := h c0 hc0 hws2
    rw [hsp] at hsep
    exact hsep (by decide)

/-- C7 amended: null passes through unchanged, and `normalize_plate` is
idempotent on every string whose whitespace characters are all plain
spaces (the counterexample forces this restriction: whitespace other than
a space, such as a tab, is outside the separator class yet trimmed at the
ends, so a second pass can still remove it). -/
theorem c7_amended_normalize_plate_idempotent (l : List Char)
    (h : ∀ c ∈ l, c.isWhitespace = true → c = ' ') :
    normalize_plate none = none ∧
    normalize_plate (normalize_plate (some l)) = normalize_plate (some l) := by
  refine ⟨rfl, ?_⟩
  have hch := normalize_core_chars h
  set r := stripChars (· == '-')
    (collapseHyphens
      ((stripChars Char.isWhitespace (l.map Char.toUpper)).map sepToHyphen)) with hr
  have hnorm : normalize_plate (some l) = some r := rfl
  rw [hnorm]
  have h1 : r.map Char.toUpper = r := by
    calc r.map Char.toUpper = r.map id := List.map_congr_left fun c hc => (hch c hc).1
      _ = r := List.map_id r
  have h2 : stripChars Char.isWhitespace r = r :=
    stripChars_eq_self_of_all fun c hc => (hch c hc).2.1
  have h3 : r.map sepToHyphen = r := by
    calc r.map sepToHyphen = r.map id := List.map_congr_left fun c hc => by
          simp [sepToHyphen, (hch c hc).2.2]
      _ = r := List.map_id r
  have h4 : collapseHyphens r = r := by
    apply collapseHyphens_of_chain'
    rw [hr]
    exact chain'_stripChars (chain'_collapseHyphens _)
  have h5 : stripChars (· == '-') r = r := by
    rw [hr]
    exact stripChars_idem _ _
  show some (stripChars (· == '-')
    (collapseHyphens
      ((stripChars Char.isWhitespace (r.map Char.toUpper)).map sepToHyphen))) = some r
  rw [h1, h2, h3, h4, h5]

/-- Witness for C7's amended statement: the spec's own example plate
"3a 1111" (whitespace is a plain space) is a fixed point after one pass. -/
theorem c7_amended_normalize_plate_idempotent_witness :
    normalize_plate (normalize_plate (some "3a 1111".toList)) =
      normalize_plate (some "3a 1111".toList) :=
  (c7_amended_normalize_plate_idempotent "3a 1111".toList (by decide)).2

/-- C6 counterexample: with scans (day 0, Loading), (day 1, Unloading),
(day 2, Loading) for one truck, the two-tier lookup of the claim would
join "Unloading" for a visit on day 1, but the code's `coming_map` joins
the last direction over all history, "Loading". -/
theorem c6_two_tier_counterexample :
    comingMap
      [{ plate := "T1", ts := some 0, direction := some "Loading" },
       { plate := "T1", ts := some 1440, direction := some "Unloading" },
       { plate := "T1", ts := some 2880, direction := some "Loading" }] "T1" ≠
    directionSpecTwoTier
      [{ plate := "T1", ts := some 0, direction := some "Loading" },
       { plate := "T1", ts := some 1440, direction := some "Unloading" },
       { plate := "T1", ts := some 2880, direction := some "Loading" }] "T1" 1 ∧
    directionSpecTwoTier
      [{ plate := "T1", ts := some 0, direction := some "Loading" },
       { plate := "T1", ts := some 1440, direction := some "Unloading" },
       { plate := "T1", ts := some 2880, direction := some "Loading" }] "T1" 1 =
      some "Unloading" := by
  constructor
  · decide
  · decide

/-- In a timestamp-sorted row list, a row whose timestamp strictly exceeds
every other row's sits at the end. -/
theorem getLast_append_of_strict_max :
    ∀ {L : List SecurityRow} {r : SecurityRow} {t : Nat},
      List.Pairwise secRel L → r ∈ L → r.ts = some t →
      (∀ x ∈ L, x ≠ r → ∃ u, x.ts = some u ∧ u < t) →
      ∃ L0, L = L0 ++ [r]
  | [], _, _, _, hr, _, _ => absurd hr (List.not_mem_nil _)
  | a :: L, r, t, hp, hr, ht, hmax => by
    by_cases hrL : r ∈ L
    · obtain ⟨L0, hL0⟩ := getLast_append_of_strict_max
        (List.pairwise_cons.mp hp).2 hrL ht
        (fun x hx hxr => hmax x (List.mem_cons_of_mem a hx) hxr)
      exact ⟨a :: L0, by rw [hL0]; rfl⟩
    · have hra : r = a := by
        rcases List.mem_cons.mp hr with h | h
        · exact h
        · exact absurd h hrL
      cases L with
      | nil => exact ⟨[], by simp [hra]⟩
      | cons y L2 =>
        exfalso
        have hy : y ∈ a :: y :: L2 := List.mem_cons_of_mem a (List.mem_cons_self y L2)
        have hyr : y ≠ r := fun he => hrL (he ▸ List.mem_cons_self y L2)
        obtain ⟨u, hyu, hut⟩ := hmax y hy hyr
        have hrel : secRel a y := (List.pairwise_cons.mp hp).1 y (List.mem_cons_self y L2)
        rw [← hra] at hrel
        unfold secRel at hrel
        rw [ht, hyu] at hrel
        simp only [tsLe, decide_eq_true_eq] at hrel
        omega

/-- C6 amended: the direction joined by the loading-durations view is the
truck's most recent known direction over the whole security history — if
one of the truck's rows has a non-null direction and a timestamp strictly
later than every other row of that truck, its direction is joined, with no
preference for a scan on the visit's date. -/
theorem c6_amended_direction_latest (sec : List SecurityRow) (p : String)
    (r : SecurityRow) (t : Nat) (d : String)
    (hr : r ∈ sec) (hp : r.plate = p) (ht : r.ts = some t) (hd : r.direction = some d)
    (hmax : ∀ x ∈ sec, x.plate = p → x ≠ r → ∃ u, x.ts = some u ∧ u < t) :
    comingMap sec p = some d := by
  have hsorted : List.Pairwise secRel (List.insertionSort secRel sec) :=
    List.sorted_insertionSort secRel sec
  set L := (List.insertionSort secRel sec).filter (·.plate == p) with hL
  have hpL : List.Pairwise secRel L := hsorted.filter _
  have hrL : r ∈ L := by
    rw [hL]
    refine List.mem_filter.mpr ⟨?_, by simp [hp]⟩
    exact (List.perm_insertionSort secRel sec).mem_iff.mpr hr
  have hmaxL : ∀ x ∈ L, x ≠ r → ∃ u, x.ts = some u ∧ u < t := by
    intro x hx hxr
    rw [hL] at hx
    obtain ⟨hx1, hx2⟩ := List.mem_filter.mp hx
    exact hmax x ((List.perm_insertionSort secRel sec).mem_iff.mp hx1)
      (by simpa using hx2) hxr
  obtain ⟨L0, hL0⟩ := getLast_append_of_strict_max hpL hrL ht hmaxL
  unfold comingMap lastSome
  rw [← hL, hL0, List.map_append, List.reverse_append]
  simp [firstSome, hd]

/-- Witness for C6's amended statement on the counterexample data: the
day-2 scan has the strictly latest timestamp, so its direction "Loading"
is joined. -/
theorem c6_amended_direction_latest_witness :
    comingMap
      [{ plate := "T1", ts := some 0, direction := some "Loading" },
       { plate := "T1", ts := some 1440, direction := some "Unloading" },
       { plate := "T1", ts := some 2880, direction := some "Loading" }] "T1" =
      some "Loading" :=
  c6_amended_direction_latest _ "T1"
    { plate := "T1", ts := some 2880, direction := some "Loading" } 2880 "Loading"
    (by decide) rfl rfl rfl (by decide)

/-- A single requested date matches a timestamp exactly when the
degenerate range with both endpoints equal to it does. -/
theorem matchDate_single_eq_range (D t : Nat) :
    matchDate (some D) none none t = matchDate none (some D) (some D) t := by
  show (dateOf t == D) = (decide (D ≤ dateOf t) && decide (dateOf t ≤ D))
  by_cases h : dateOf t = D
  · simp [h]
  · have h1 : (dateOf t == D) = false := by simpa using h
    rw [h1]
    by_cases h2 : D ≤ dateOf t
    · have h3 : ¬(dateOf t ≤ D) := fun hle => h (Nat.le_antisymm hle h2)
      simp [h2, h3]
    · simp [h2]

/-- Filtering a frame by a single date equals filtering it by the
degenerate range with both endpoints equal to that date. -/
theorem filterByDate_single_eq_range {α : Type} (hasTs : Bool) (ts : α → Option Nat)
    (D : Nat) (rows : List α) :
    filterByDate hasTs ts (some D) none none rows =
      filterByDate hasTs ts none (some D) (some D) rows := by
  cases hasTs with
  | false => rfl
  | true =>
    show rows.filter (fun r => match ts r with
        | some t => matchDate (some D) none none t
        | none => false) =
      rows.filter (fun r => match ts r with
        | some t => matchDate none (some D) (some D) t
        | none => false)
    apply List.filter_congr
    intro r _
    cases ts r with
    | none => rfl
    | some t => exact matchDate_single_eq_range D t

/-- The date-attribution filter with a single date equals it with the
degenerate range. -/
theorem dateAttrFilter_single_eq_range (D : Nat) (rows : List VisitRow) :
    dateAttrFilter (some D) none none rows = dateAttrFilter none (some D) (some D) rows := by
  show rows.filter (fun r => r.Date == some D) =
    rows.filter (fun r => match r.Date with
      | some dd => decide (D ≤ dd) && decide (dd ≤ D)
      | none => false)
  apply List.filter_congr
  intro r _
  cases hrd : r.Date with
  | none => rfl
  | some dd =>
    by_cases h : dd = D
    · simp [h]
    · have h1 : (some dd == some D) = false := by simp [h]
      rw [h1]
      by_cases h2 : D ≤ dd
      · have h3 : ¬(dd ≤ D) := fun hle => h (Nat.le_antisymm hle h2)
        simp [h2, h3]
      · simp [h2]

/-- C8: for every set of input tables and every date `D`,
`compute_per_truck_metrics` with `selected_date = D` produces exactly the
same visit rows as with `start_date = end_date = D`, for any product
filter, direction filter and fallback mode. -/
theorem c8_single_date_range_equiv (sec : List SecurityRow) (st : List StatusRow)
    (lg : List LogisticRow) (dr : List DriverRow) (D : Nat) (pf : List String)
    (ut : Option String) (uf : Bool) :
    computeVisits sec st lg dr (some D) none none pf ut uf =
      computeVisits sec st lg dr none (some D) (some D) pf ut uf := by
  simp only [computeVisits]
  rw [filterByDate_single_eq_range true StatusRow.ts D st,
      filterByDate_single_eq_range true LogisticRow.ts D lg,
      filterByDate_single_eq_range true SecurityRow.ts D sec,
      dateAttrFilter_single_eq_range]
  simp only [Option.isSome_some, Option.isSome_none, Bool.true_or, Bool.or_true,
    Bool.false_or, Bool.or_false]

/-- C2 counterexample: a truck seen only in the security sheet (scan on
day 0) yields no visit row when `selected_date` is day 0 — its three event
times are all absent, so no `Date` can be derived and the final
date-attribution filter drops the row. -/
theorem c2_truck_universe_counterexample :
    computeVisits [{ plate := "T1", ts := some 100, direction := none }] [] [] []
      (some 0) none none [] none false = [] := by decide

/-- Every base row produced for a plate carries that plate. -/
theorem fst_of_mem_truckRows {stW : List StatusRow} {lgW : List LogisticRow}
    {stAll : List StatusRow} {p : String} {q : String × Option String}
    (h : q ∈ truckRows stW lgW stAll p) : q.1 = p := by
  unfold truckRows at h
  cases hps : productsOf stW lgW stAll p with
  | nil =>
    rw [hps] at h
    simp at h
    rw [h]
  | cons g gs =>
    rw [hps] at h
    obtain ⟨g1, hg1, rfl⟩ := List.mem_map.mp h
    rfl

/-- The base rows of one plate are distinct (their products come from a
set). -/
theorem nodup_truckRows (stW : List StatusRow) (lgW : List LogisticRow)
    (stAll : List StatusRow) (p : String) : (truckRows stW lgW stAll p).Nodup := by
  unfold truckRows
  cases hps : productsOf stW lgW stAll p with
  | nil => simp
  | cons g gs =>
    have hnd : (productsOf stW lgW stAll p).Nodup := List.nodup_dedup _
    rw [hps] at hnd
    exact hnd.map (fun a b hab => by simpa using hab)

/-- The base `kpi` frame has pairwise-distinct `(plate, product)` rows. -/
theorem nodup_baseRows (sec : List SecurityRow) (st : List StatusRow)
    (lg : List LogisticRow) (dr : List DriverRow) (stW : List StatusRow)
    (lgW : List LogisticRow) : (baseRows sec st lg dr stW lgW).Nodup := by
  unfold baseRows
  rw [List.nodup_flatMap]
  constructor
  · intro p _
    exact nodup_truckRows stW lgW st p
  · have hnd : (trucksUnion sec st lg dr).Nodup := List.nodup_dedup _
    refine hnd.imp ?_
    intro a b hab q hqa hqb
    apply hab
    rw [← fst_of_mem_truckRows hqa, fst_of_mem_truckRows hqb]

/-- With no date arguments and no product/direction filters,
`compute_per_truck_metrics` is exactly the enriched base frame. -/
theorem computeVisits_no_filters (sec : List SecurityRow) (st : List StatusRow)
    (lg : List LogisticRow) (dr : List DriverRow) (uf : Bool) :
    computeVisits sec st lg dr none none none [] none uf =
      (baseRows sec st lg dr st lg).map
        (fun pr => mkVisitRow st lg lg uf pr.1 pr.2) := rfl

/-- The `(plate, product)` keys of the unfiltered output are the base
rows. -/
theorem keys_computeVisits_no_filters (sec : List SecurityRow) (st : List StatusRow)
    (lg : List LogisticRow) (dr : List DriverRow) (uf : Bool) :
    (computeVisits sec st lg dr none none none [] none uf).map
      (fun r => (r.Truck_Plate_Number, r.Product_Group)) =
      baseRows sec st lg dr st lg := by
  rw [computeVisits_no_filters, List.map_map]
  exact (List.map_congr_left fun q _ => rfl).trans (List.map_id _)

/-- Filtering a per-plate flat map to one plate of the (deduplicated)
plate list recovers exactly that plate's rows. -/
theorem flatMap_filter_eq (ts : List String)
    (f : String → List (String × Option String))
    (hfst : ∀ p q, q ∈ f p → q.1 = p) (hnd : ts.Nodup) (p : String) (hp : p ∈ ts) :
    (ts.flatMap f).filter (fun q => q.1 == p) = f p := by
  induction ts with
  | nil => cases hp
  | cons a rest ih =>
    rw [List.flatMap_cons, List.filter_append]
    rcases List.mem_cons.mp hp with rfl | hprest
    · have h1 : (f p).filter (fun q => q.1 == p) = f p :=
        List.filter_eq_self.mpr fun q hq => by simp [hfst p q hq]
      have h2 : (rest.flatMap f).filter (fun q => q.1 == p) = [] := by
        rw [List.filter_eq_nil_iff]
        intro q hq
        obtain ⟨b, hb, hqb⟩ := List.mem_flatMap.mp hq
        have hq1 : q.1 = b := hfst b q hqb
        have hbp : b ≠ p := by
          intro he
          subst he
          exact (List.nodup_cons.mp hnd).1 hb
        simp [hq1, hbp]
      rw [h1, h2, List.append_nil]
    · have ha : a ≠ p := by
        intro he
        subst he
        exact (List.nodup_cons.mp hnd).1 hprest
      have h1 : (f a).filter (fun q => q.1 == p) = [] := by
        rw [List.filter_eq_nil_iff]
        intro q hq
        simp [hfst a q hq, ha]
      rw [h1, List.nil_append]
      exact ih (List.nodup_cons.mp hnd).2 hprest

/-- A plate of the union together with one of its observed products
always yields a row of the unfiltered output. -/
theorem mem_computeVisits_of_pair (sec : List SecurityRow) (st : List StatusRow)
    (lg : List LogisticRow) (dr : List DriverRow) (uf : Bool) (p g : String)
    (hpt : p ∈ trucksUnion sec st lg dr) (hgin : g ∈ productsOf st lg st p) :
    ∃ r, r ∈ computeVisits sec st lg dr none none none [] none uf ∧
      r.Truck_Plate_Number = p ∧ r.Product_Group = some g := by
  have hq : (p, some g) ∈ truckRows st lg st p := by
    unfold truckRows
    cases hps : productsOf st lg st p with
    | nil =>
      rw [hps] at hgin
      cases hgin
    | cons a as =>
      rw [hps] at hgin
      exact List.mem_map_of_mem _ hgin
  have hqb : (p, some g) ∈ baseRows sec st lg dr st lg :=
    List.mem_flatMap.mpr ⟨p, hpt, hq⟩
  exact ⟨mkVisitRow st lg lg uf p (some g),
    by rw [computeVisits_no_filters]; exact List.mem_map_of_mem _ hqb, rfl, rfl⟩

/-- C2 amended: with no date arguments and no product/direction filters,
the output has pairwise-distinct `(plate, product)` keys; every plate of
the four-source union yields at least one row; a union plate with no
observed product yields exactly the single null-product row; and every
`(plate, product)` pair observed in the status sheet or in the logistic
sheet (`_accumulate_products` feeds both into `prod_sets`) yields a row.
(When a date argument is supplied, rows whose three event times are all
absent — e.g. trucks known only from security or driver records — are
dropped by the date-attribution filter, as the counterexample shows.) -/
theorem c2_amended_visit_rows (sec : List SecurityRow) (st : List StatusRow)
    (lg : List LogisticRow) (dr : List DriverRow) (uf : Bool) :
    ((computeVisits sec st lg dr none none none [] none uf).map
        (fun r => (r.Truck_Plate_Number, r.Product_Group))).Nodup ∧
    (∀ p, p ∈ platesOfAll sec st lg dr →
      ∃ r, r ∈ computeVisits sec st lg dr none none none [] none uf ∧
        r.Truck_Plate_Number = p) ∧
    (∀ p, p ∈ platesOfAll sec st lg dr → productsOf st lg st p = [] →
      (computeVisits sec st lg dr none none none [] none uf).filter
          (fun r => r.Truck_Plate_Number == p) = [mkVisitRow st lg lg uf p none]) ∧
    (∀ r0 ∈ st, ∀ g, r0.product = some g →
      ∃ r, r ∈ computeVisits sec st lg dr none none none [] none uf ∧
        r.Truck_Plate_Number = r0.plate ∧ r.Product_Group = some g) ∧
    (∀ r0 ∈ lg, ∀ g, r0.product = some g →
      ∃ r, r ∈ computeVisits sec st lg dr none none none [] none uf ∧
        r.Truck_Plate_Number = r0.plate ∧ r.Product_Group = some g) := by
  refine ⟨?_, ?_, ?_, ?_, ?_⟩
  · rw [keys_computeVisits_no_filters]
    exact nodup_baseRows sec st lg dr st lg
  · intro p hp
    have hpt : p ∈ trucksUnion sec st lg dr := List.mem_dedup.mpr hp
    have hq : ∃ q, q ∈ truckRows st lg st p := by
      cases hps : productsOf st lg st p with
      | nil => exact ⟨(p, none), by unfold truckRows; rw [hps]; simp⟩
      | cons g gs =>
        exact ⟨(p, some g), by
          unfold truckRows
          rw [hps]
          exact List.mem_map_of_mem _ (List.mem_cons_self g gs)⟩
    obtain ⟨q, hq⟩ := hq
    have hqb : q ∈ baseRows sec st lg dr st lg := List.mem_flatMap.mpr ⟨p, hpt, hq⟩
    refine ⟨mkVisitRow st lg lg uf q.1 q.2, ?_, ?_⟩
    · rw [computeVisits_no_filters]
      exact List.mem_map_of_mem _ hqb
    · exact fst_of_mem_truckRows hq
  · intro p hp hprod
    rw [computeVisits_no_filters, List.filter_map]
    have hcomp : ((fun r : VisitRow => r.Truck_Plate_Number == p) ∘
        (fun pr : String × Option String => mkVisitRow st lg lg uf pr.1 pr.2)) =
        fun q : String × Option String => q.1 == p := rfl
    rw [hcomp]
    unfold baseRows
    have hfe : ((trucksUnion sec st lg dr).flatMap (truckRows st lg st)).filter
        (fun q => q.1 == p) = truckRows st lg st p :=
      flatMap_filter_eq (trucksUnion sec st lg dr) (truckRows st lg st)
        (fun a q hq => fst_of_mem_truckRows hq) (List.nodup_dedup _) p
        (List.mem_dedup.mpr hp)
    rw [hfe]
    unfold truckRows
    rw [hprod]
    exact rfl
  · intro r0 hr0 g hg
    have hpt : r0.plate ∈ trucksUnion sec st lg dr := by
      apply List.mem_dedup.mpr
      unfold platesOfAll
      exact List.mem_append.mpr (Or.inl (List.mem_append.mpr (Or.inl
        (List.mem_append.mpr (Or.inl (List.mem_map_of_mem _ hr0))))))
    have hgin : g ∈ productsOf st lg st r0.plate := by
      apply List.mem_dedup.mpr
      apply List.mem_append.mpr
      left
      apply List.mem_append.mpr
      left
      exact List.mem_filterMap.mpr ⟨r0, List.mem_filter.mpr ⟨hr0, by simp⟩, hg⟩
    exact mem_computeVisits_of_pair sec st lg dr uf r0.plate g hpt hgin
  · intro r0 hr0 g hg
    have hpt : r0.plate ∈ trucksUnion sec st lg dr := by
      apply List.mem_dedup.mpr
      unfold platesOfAll
      exact List.mem_append.mpr (Or.inl (List.mem_append.mpr (Or.inl
        (List.mem_append.mpr (Or.inr (List.mem_map_of_mem _ hr0))))))
    have hgin : g ∈ productsOf st lg st r0.plate := by
      apply List.mem_dedup.mpr
      apply List.mem_append.mpr
      left
      apply List.mem_append.mpr
      right
      exact List.mem_filterMap.mpr ⟨r0, List.mem_filter.mpr ⟨hr0, by simp⟩, hg⟩
    exact mem_computeVisits_of_pair sec st lg dr uf r0.plate g hpt hgin

/-- Witness for C2's amended statement: a truck "B" known only from a
security scan appears in the output of the unfiltered (no date arguments)
invocation. -/
theorem c2_amended_visit_rows_witness :
    ∃ r, r ∈ computeVisits [{ plate := "B", ts := some 10, direction := none }]
        [{ plate := "A", product := some "Pipe", status := "Arrival", ts := some 20 }]
        [] [] none none none [] none false ∧
      r.Truck_Plate_Number = "B" :=
  (c2_amended_visit_rows _ _ _ _ false).2.1 "B" (by decide)
